import Mathlib

/-!
Verification of the document locator and content resolution logic of the
UAB Research Computing documentation server (uab_docs_server.py and
uab_docs_server_final.py).  Python strings are modelled as lists of
characters; the Python string primitives used by the server
(str.replace with all occurrences, str.replace with count 1, str.split,
str.split with maxsplit 1, str.lstrip, str.rstrip, startswith, endswith,
substring containment) are modelled by executable functions below, and the
four core operations of the spec (normalize, canonicalizeUrl alias
cleanPath, resolveContent, translateSearch) are translated from the source.
-/

/-- Python strings are modelled as lists of characters. -/
abbrev Str := List Char

/-- Literal ".md", the canonical extension. -/
def mdExt : Str := ".md".toList

/-- Literal "README", the index-file token removed by the search-side cleaning. -/
def readmeTok : Str := "README".toList

/-- Literal "docs/", the root-folder prefix of documentation sources. -/
def docsPrefixTok : Str := "docs/".toList

/-- Literal "http", used by the startswith test on identifiers. -/
def httpTok : Str := "http".toList

/-- Literal "github.com", tested for by substring containment. -/
def githubComTok : Str := "github.com".toList

/-- Literal "/blob/", the revision-segment separator in GitHub URLs. -/
def blobTok : Str := "/blob/".toList

/-- DOCS_BASE_URL constant of the server. -/
def docsBaseUrl : Str := "https://docs.rc.uab.edu".toList

/-- GITHUB_REPO constant of the server. -/
def githubRepoTok : Str := "uabrc/uabrc.github.io".toList

/-- Python substring containment, pat in s. -/
def hasSub (pat : Str) (s : Str) : Bool :=
  match s with
  | [] => pat.isEmpty
  | c :: cs => pat.isPrefixOf (c :: cs) || hasSub pat cs

/-- Python s.split(pat) observed through its first separator occurrence:
returns the text before the first occurrence of pat and the text after it,
or none when pat does not occur.  This also models s.split(pat, 1). -/
def splitFirst (pat : Str) (s : Str) : Option (Str × Str) :=
  match s with
  | [] => none
  | c :: cs =>
    if pat.isPrefixOf (c :: cs) then some ([], (c :: cs).drop pat.length)
    else
      match splitFirst pat cs with
      | some (a, b) => some (c :: a, b)
      | none => none

/-- Worker for removeAll, structurally recursive on the string: the
counter holds how many characters of a matched pattern remain to be
consumed without being emitted. -/
def removeAllAux (pat : Str) : Str → Nat → Str
  | [], _ => []
  | _ :: cs, Nat.succ k => removeAllAux pat cs k
  | c :: cs, 0 =>
    if pat.isPrefixOf (c :: cs) && !pat.isEmpty then removeAllAux pat cs (pat.length - 1)
    else c :: removeAllAux pat cs 0

/-- Python s.replace(pat, ""): removes every occurrence of pat, scanning
left to right, non-overlapping, never rescanning already-produced output. -/
def removeAll (pat : Str) (s : Str) : Str := removeAllAux pat s 0

/-- Python s.replace(pat, "", 1): removes only the first occurrence of pat. -/
def removeFirst (pat : Str) (s : Str) : Str :=
  match s with
  | [] => []
  | c :: cs =>
    if pat.isPrefixOf (c :: cs) then (c :: cs).drop pat.length
    else c :: removeFirst pat cs

/-- Python s.lstrip("/"). -/
def lstripSlash (s : Str) : Str := s.dropWhile (fun c => c == '/')

/-- Python s.rstrip("/"). -/
def rstripSlash (s : Str) : Str := (s.reverse.dropWhile (fun c => c == '/')).reverse

/-- Step 3 of the search-side cleaning: remove a leading docs/ prefix,
clean_path = clean_path[5:] when clean_path.startswith("docs/"). -/
def dropDocsPre (p : Str) : Str :=
  if docsPrefixTok.isPrefixOf p then p.drop 5 else p

/-- The URL Canonicalizer of search_documentation (steps 1 to 4 on a search
hit path): remove every ".md", remove every "README", strip one leading
"docs/", strip trailing slashes. -/
def cleanPath (filePath : Str) : Str :=
  rstripSlash (dropDocsPre (removeAll readmeTok (removeAll mdExt filePath)))

/-- Step 5 of search_documentation: doc_url = DOCS_BASE_URL/clean_path. -/
def docUrl (filePath : Str) : Str := docsBaseUrl ++ ('/' :: cleanPath filePath)

/-- The display-path derivation of get_documentation_page:
page_path.replace("docs/", "", 1).replace(".md", "").rstrip("/"). -/
def displayPath (pagePath : Str) : Str :=
  rstripSlash (removeAll mdExt (removeFirst docsPrefixTok pagePath))

/-- docs_site_url of get_documentation_page: DOCS_BASE_URL/display_path. -/
def docsSiteUrl (pagePath : Str) : Str := docsBaseUrl ++ ('/' :: displayPath pagePath)

/-- Failure outcomes of the path-normalization prelude of
get_documentation_page. -/
inductive NormError where
  | notGithubUrl
  | extractFailed
deriving DecidableEq

deriving instance DecidableEq for Except

/-- The URL-handling phase of get_documentation_page: when the identifier
starts with "http", require the substring "github.com", split on "/blob/",
and take what follows the first "/" of the part after "/blob/"; a URL with
"github.com" but no "/blob/" falls through unchanged. -/
def urlPhase (pagePath : Str) : Except NormError Str :=
  if httpTok.isPrefixOf pagePath then
    if hasSub githubComTok pagePath then
      match splitFirst blobTok pagePath with
      | none => Except.ok pagePath
      | some (_, tail) =>
        let seg :=
          match splitFirst blobTok tail with
          | some (mid, _) => mid
          | none => tail
        match splitFirst ['/'] seg with
        | some (_, after) => Except.ok after
        | none => Except.error NormError.extractFailed
    else Except.error NormError.notGithubUrl
  else Except.ok pagePath

/-- The path cleanup of get_documentation_page: strip leading slashes,
prepend "docs/" when missing, append ".md" when missing. -/
def cleanupPath (p : Str) : Str :=
  let p1 := lstripSlash p
  let p2 := if docsPrefixTok.isPrefixOf p1 then p1 else docsPrefixTok ++ p1
  if mdExt.isSuffixOf p2 then p2 else p2 ++ mdExt

/-- The Path Normalizer: the full prelude of get_documentation_page, from a
raw identifier to the repository path used for the fetch. -/
def normalizePath (pagePath : Str) : Except NormError Str :=
  (urlPhase pagePath).map cleanupPath

/-- Branch candidate "main", tried first by get_documentation_page. -/
def mainBranch : Str := "main".toList

/-- Branch candidate "master", the fallback of get_documentation_page. -/
def masterBranch : Str := "master".toList

/-- The ordered branch candidate list of the Content Resolver. -/
def branchCandidates : List Str := [mainBranch, masterBranch]

/-- Raw-content fetch address,
https://raw.githubusercontent.com/GITHUB_REPO/branch/page_path. -/
def rawUrl (branch : Str) (pagePath : Str) : Str :=
  "https://raw.githubusercontent.com/".toList ++
    (githubRepoTok ++ ('/' :: (branch ++ ('/' :: pagePath))))

/-- A successful make_http_request body: markdown text, or a structured
JSON payload (a dict in the Python code). -/
inductive Payload where
  | text (s : Str)
  | structured
deriving DecidableEq

/-- Outcome of the Content Resolver. -/
inductive ResolveOutcome where
  | ok (s : Str)
  | notFound
  | unexpectedContentType
deriving DecidableEq

/-- The post-fetch payload check of get_documentation_page: a dict payload
is the UnexpectedContentType error, text is returned. -/
def finishPayload : Payload → ResolveOutcome
  | Payload.structured => ResolveOutcome.unexpectedContentType
  | Payload.text s => ResolveOutcome.ok s

/-- The Content Resolver of get_documentation_page: fetch the main-branch
raw URL; when that yields nothing, fetch the master-branch raw URL; when
both yield nothing, NotFound.  The network is abstracted as a function from
the fetch address to the optional payload. -/
def resolveContent (fetch : Str → Option Payload) (pagePath : Str) : ResolveOutcome :=
  match fetch (rawUrl mainBranch pagePath) with
  | some content => finishPayload content
  | none =>
    match fetch (rawUrl masterBranch pagePath) with
    | some content => finishPayload content
    | none => ResolveOutcome.notFound

/-- A search hit as returned by the upstream code-search provider. -/
structure SearchItem where
  name : Str
  path : Str
  htmlUrl : Str
deriving DecidableEq

/-- The decoded body of a successful upstream search response. -/
structure SearchData where
  totalCount : Nat
  items : List SearchItem
deriving DecidableEq

/-- The upstream search request built by search_documentation:
q is "query repo:GITHUB_REPO" and per_page is the capped result count. -/
structure SearchRequest where
  q : Str
  perPage : Int
deriving DecidableEq

/-- search_documentation builds its request after max_results =
min(max_results, 10); there is no lower clamp in the code. -/
def buildSearchRequest (query : Str) (maxResults : Int) : SearchRequest :=
  { q := query ++ (" repo:".toList ++ githubRepoTok)
    perPage := min maxResults 10 }

/-- The upstream outcome observed by search_documentation: an HTTP error
status, a decoded body, or some other exception. -/
inductive Upstream where
  | httpError (status : Nat)
  | ok (data : SearchData)
  | exc
deriving DecidableEq

/-- A documentation entry derived from a search hit (title, public URL,
repository URL, source path, exactly the fields formatted per hit). -/
structure DocEntry where
  title : Str
  publicUrl : Str
  repositoryUrl : Str
  sourcePath : Str
deriving DecidableEq

/-- Result classes of search_documentation. -/
inductive SearchResult where
  | entries (l : List DocEntry)
  | noResults
  | authenticationFailure
  | rateLimited
  | httpFailure (status : Nat)
  | otherError
deriving DecidableEq

/-- Python l[:n] for an Int bound n: nonnegative n keeps the first n
elements; negative n drops the last -n elements. -/
def pySliceTo (n : Int) (l : List α) : List α :=
  if 0 ≤ n then l.take n.toNat else l.take ((l.length : Int) + n).toNat

/-- One search hit mapped to its documentation entry, with the public URL
produced by the URL Canonicalizer. -/
def mkEntry (it : SearchItem) : DocEntry :=
  { title := it.name
    publicUrl := docUrl it.path
    repositoryUrl := it.htmlUrl
    sourcePath := it.path }

/-- The Search Query Translator response handling of search_documentation:
status 401 is the authentication failure, status 403 the rate limit, other
statuses a generic HTTP failure, exceptions a generic error; an empty item
list is the no-results message; otherwise the items, truncated to the
capped count, are mapped to documentation entries in upstream order. -/
def translateSearch (query : Str) (maxResults : Int) (resp : Upstream) : SearchResult :=
  let m := min maxResults 10
  match resp with
  | Upstream.httpError status =>
    if status = 401 then SearchResult.authenticationFailure
    else if status = 403 then SearchResult.rateLimited
    else SearchResult.httpFailure status
  | Upstream.exc => SearchResult.otherError
  | Upstream.ok data =>
    if data.items = [] then SearchResult.noResults
    else SearchResult.entries ((pySliceTo m data.items).map mkEntry)

/-- Fetch oracle used to exercise the resolver at a concrete input: the
main branch fails, the master branch returns text. -/
def demoFetch (u : Str) : Option Payload :=
  if u = rawUrl masterBranch ("docs/a.md".toList) then some (Payload.text "hello".toList)
  else none

/-! ## Basic lemmas about the string primitives -/

/-- Boolean prefix test agrees with the prefix relation. -/
theorem isPre_iff {a b : Str} : a.isPrefixOf b = true ↔ a <+: b :=
  List.isPrefixOf_iff_prefix

/-- Boolean suffix test agrees with the suffix relation. -/
theorem isSuf_iff {a b : Str} : a.isSuffixOf b = true ↔ a <:+ b :=
  List.isSuffixOf_iff_suffix

/-- The skip counter of removeAllAux consumes exactly a drop. -/
theorem removeAllAux_skip (pat : Str) :
    ∀ (k : Nat) (s : Str), removeAllAux pat s k = removeAll pat (s.drop k) := by
  intro k
  induction k with
  | zero => intro s; rfl
  | succ j ih =>
    intro s
    cases s with
    | nil => rfl
    | cons c cs =>
      show removeAllAux pat cs j = _
      rw [ih cs]
      rfl

/-- Unfolding equation for removeAll on a nonempty string, in the shape of
the Python scanning loop. -/
theorem removeAll_cons (pat : Str) (c : Char) (cs : Str) :
    removeAll pat (c :: cs) =
      if pat.isPrefixOf (c :: cs) && !pat.isEmpty then
        removeAll pat ((c :: cs).drop pat.length)
      else c :: removeAll pat cs := by
  have he : removeAll pat (c :: cs) =
      if pat.isPrefixOf (c :: cs) && !pat.isEmpty then
        removeAllAux pat cs (pat.length - 1)
      else c :: removeAllAux pat cs 0 := rfl
  rw [he]
  by_cases hb : (pat.isPrefixOf (c :: cs) && !pat.isEmpty) = true
  · rw [if_pos hb, if_pos hb, removeAllAux_skip]
    have hne : pat ≠ [] := by
      intro hp
      rw [hp] at hb
      simp [List.isEmpty] at hb
    congr 1
    cases pat with
    | nil => exact absurd rfl hne
    | cons p ps => simp
  · rw [if_neg hb, if_neg hb]
    rfl

/-- Unfolding equation for hasSub on a nonempty string. -/
theorem hasSub_cons (pat : Str) (c : Char) (cs : Str) :
    hasSub pat (c :: cs) = (pat.isPrefixOf (c :: cs) || hasSub pat cs) := rfl

/-- A prefix occurrence makes hasSub true. -/
theorem hasSub_of_pre {pat t : Str} (h : pat <+: t) : hasSub pat t = true := by
  cases t with
  | nil =>
    have hp : pat = [] := List.prefix_nil.mp h
    simp [hasSub, hp]
  | cons c cs =>
    rw [hasSub_cons, isPre_iff.mpr h]
    rfl

/-- hasSub is monotone along the tail, contrapositive form. -/
theorem hasSub_tail {pat : Str} {c : Char} {cs : Str}
    (h : hasSub pat (c :: cs) = false) : hasSub pat cs = false := by
  rw [hasSub_cons] at h
  exact (Bool.or_eq_false_iff.mp h).2

/-- A pattern whose head character is absent from a string does not occur
in it. -/
theorem hasSub_false_of_head_notMem {p0 : Char} {pr s : Str} (h : p0 ∉ s) :
    hasSub (p0 :: pr) s = false := by
  induction s with
  | nil => rfl
  | cons c cs ih =>
    rw [hasSub_cons]
    have h1 : (p0 == c) = false := by
      have : p0 ≠ c := fun he => h (he ▸ List.mem_cons_self c cs)
      simp [this]
    have h2 : (p0 :: pr).isPrefixOf (c :: cs) = false := by
      simp [List.isPrefixOf, h1]
    have h3 : hasSub (p0 :: pr) cs = false := ih (fun hm => h (List.mem_cons_of_mem c hm))
    rw [h2, h3]
    rfl

/-- When the pattern does not occur, splitFirst finds nothing. -/
theorem splitFirst_of_not_hasSub {pat : Str} :
    ∀ {s : Str}, hasSub pat s = false → splitFirst pat s = none := by
  intro s
  induction s with
  | nil => intro _; rfl
  | cons c cs ih =>
    intro h
    rw [hasSub_cons] at h
    obtain ⟨h1, h2⟩ := Bool.or_eq_false_iff.mp h
    simp [splitFirst, h1, ih h2]

/-- An occurrence of the pattern strictly inside the prefix part a of
a ++ (pat ++ b) would be an occurrence inside a ++ pat.dropLast; with that
excluded, the pattern is not a prefix at the head of a. -/
theorem isPre_false_head {pat : Str} (hne : pat ≠ []) (c : Char) (a1 b : Str)
    (h : hasSub pat ((c :: a1) ++ pat.dropLast) = false) :
    pat.isPrefixOf (c :: (a1 ++ (pat ++ b))) = false := by
  cases hb : pat.isPrefixOf (c :: (a1 ++ (pat ++ b))) with
  | false => rfl
  | true =>
    exfalso
    have hpre : pat <+: (c :: a1) ++ (pat ++ b) := isPre_iff.mp hb
    have hdl : pat.dropLast ++ [pat.getLast hne] = pat :=
      List.dropLast_concat_getLast hne
    have hsplit : (c :: a1) ++ (pat ++ b) =
        ((c :: a1) ++ pat.dropLast) ++ (pat.getLast hne :: b) := by
      conv_lhs => rw [← hdl]
      simp
    have hpre2 : ((c :: a1) ++ pat.dropLast) <+: (c :: a1) ++ (pat ++ b) := by
      rw [hsplit]
      exact List.prefix_append _ _
    have hlen : pat.length ≤ ((c :: a1) ++ pat.dropLast).length := by
      have h1 : 1 ≤ pat.length := List.length_pos.mpr hne
      simp [List.length_append, List.length_dropLast]
      omega
    have hcontra : pat <+: ((c :: a1) ++ pat.dropLast) :=
      List.prefix_of_prefix_length_le hpre hpre2 hlen
    rw [hasSub_of_pre hcontra] at h
    cases h

/-- splitFirst locates the first pattern occurrence: splitting
a ++ pat ++ b at pat returns (a, b) when no occurrence starts inside a. -/
theorem splitFirst_atFirst {pat : Str} (hne : pat ≠ []) :
    ∀ (a b : Str), hasSub pat (a ++ pat.dropLast) = false →
      splitFirst pat (a ++ (pat ++ b)) = some (a, b) := by
  intro a
  induction a with
  | nil =>
    intro b _
    obtain ⟨p0, pr, hp⟩ := List.exists_cons_of_ne_nil hne
    subst hp
    show splitFirst (p0 :: pr) (p0 :: (pr ++ b)) = _
    have h1 : (p0 :: pr).isPrefixOf (p0 :: (pr ++ b)) = true :=
      isPre_iff.mpr (List.prefix_append _ _)
    simp [splitFirst, h1]
  | cons c a1 ih =>
    intro b h
    have hcond := isPre_false_head hne c a1 b h
    have hrec := ih b (hasSub_tail h)
    show splitFirst pat (c :: (a1 ++ (pat ++ b))) = _
    simp [splitFirst, hcond, hrec]

/-- removeAll removes the first pattern occurrence and continues after it:
on a ++ pat ++ b, with no occurrence starting inside a, it keeps a,
deletes pat, and processes b. -/
theorem removeAll_atFirst {pat : Str} (hne : pat ≠ []) :
    ∀ (a b : Str), hasSub pat (a ++ pat.dropLast) = false →
      removeAll pat (a ++ (pat ++ b)) = a ++ removeAll pat b := by
  intro a
  induction a with
  | nil =>
    intro b _
    obtain ⟨p0, pr, hp⟩ := List.exists_cons_of_ne_nil hne
    subst hp
    show removeAll (p0 :: pr) (p0 :: (pr ++ b)) = _
    rw [removeAll_cons]
    have h1 : (p0 :: pr).isPrefixOf (p0 :: (pr ++ b)) = true :=
      isPre_iff.mpr (List.prefix_append _ _)
    have h2 : ((p0 :: pr).isPrefixOf (p0 :: (pr ++ b)) && !(p0 :: pr).isEmpty) = true := by
      rw [h1]
      rfl
    rw [if_pos h2]
    have h3 : (p0 :: (pr ++ b)).drop (p0 :: pr).length = b :=
      List.drop_left (p0 :: pr) b
    rw [h3]
    rfl
  | cons c a1 ih =>
    intro b h
    have hcond := isPre_false_head hne c a1 b h
    have hrec := ih b (hasSub_tail h)
    show removeAll pat (c :: (a1 ++ (pat ++ b))) = _
    rw [removeAll_cons, hcond]
    simp only [Bool.false_and, if_neg Bool.false_ne_true, hrec]
    rfl

/-- When the pattern does not occur, removeAll changes nothing. -/
theorem removeAll_eq_self {pat : Str} :
    ∀ {s : Str}, hasSub pat s = false → removeAll pat s = s := by
  intro s
  induction s with
  | nil => intro _; rfl
  | cons c cs ih =>
    intro h
    rw [hasSub_cons] at h
    obtain ⟨h1, h2⟩ := Bool.or_eq_false_iff.mp h
    rw [removeAll_cons, h1]
    simp only [Bool.false_and, if_neg Bool.false_ne_true]
    rw [ih h2]

/-- Every character of the output of removeAllAux comes from its input. -/
theorem mem_removeAllAux {pat : Str} :
    ∀ (s : Str) (k : Nat) (x : Char), x ∈ removeAllAux pat s k → x ∈ s := by
  intro s
  induction s with
  | nil =>
    intro k x hx
    cases k <;> cases hx
  | cons c cs ih =>
    intro k x hx
    cases k with
    | succ j => exact List.mem_cons_of_mem c (ih j x hx)
    | zero =>
      have he : removeAllAux pat (c :: cs) 0 =
          if pat.isPrefixOf (c :: cs) && !pat.isEmpty then
            removeAllAux pat cs (pat.length - 1)
          else c :: removeAllAux pat cs 0 := rfl
      rw [he] at hx
      split at hx
      · exact List.mem_cons_of_mem c (ih _ x hx)
      · rcases List.mem_cons.mp hx with h | h
        · exact h ▸ List.mem_cons_self c cs
        · exact List.mem_cons_of_mem c (ih 0 x h)

/-- Every character of the output of removeAll comes from its input. -/
theorem mem_of_mem_removeAll {pat s : Str} {x : Char}
    (h : x ∈ removeAll pat s) : x ∈ s :=
  mem_removeAllAux s 0 x h

/-- removeAll passes over a leading block that is free of the head
character of the pattern. -/
theorem removeAll_append_left {p0 : Char} {pr : Str} :
    ∀ (a t : Str), p0 ∉ a →
      removeAll (p0 :: pr) (a ++ t) = a ++ removeAll (p0 :: pr) t := by
  intro a
  induction a with
  | nil => intro t _; rfl
  | cons c a1 ih =>
    intro t h
    have h1 : (p0 == c) = false := by
      have : p0 ≠ c := fun he => h (he ▸ List.mem_cons_self c a1)
      simp [this]
    have h2 : (p0 :: pr).isPrefixOf (c :: (a1 ++ t)) = false := by
      simp [List.isPrefixOf, h1]
    show removeAll (p0 :: pr) (c :: (a1 ++ t)) = _
    rw [removeAll_cons, h2]
    simp only [Bool.false_and, if_neg Bool.false_ne_true]
    rw [ih t (fun hm => h (List.mem_cons_of_mem c hm))]
    rfl

/-- removeFirst drops an initial occurrence of the pattern whole. -/
theorem removeFirst_append_self {pat : Str} (hne : pat ≠ []) (x : Str) :
    removeFirst pat (pat ++ x) = x := by
  obtain ⟨p0, pr, hp⟩ := List.exists_cons_of_ne_nil hne
  subst hp
  show removeFirst (p0 :: pr) (p0 :: (pr ++ x)) = x
  have h1 : (p0 :: pr).isPrefixOf (p0 :: (pr ++ x)) = true :=
    isPre_iff.mpr (List.prefix_append _ _)
  simp only [removeFirst, h1, if_pos]
  exact List.drop_left (p0 :: pr) x

/-- rstripSlash is idempotent. -/
theorem rstripSlash_idem (s : Str) : rstripSlash (rstripSlash s) = rstripSlash s := by
  simp [rstripSlash, List.reverse_reverse, List.dropWhile_idempotent]

/-- dropWhile does nothing on a head that fails the test. -/
theorem lstripSlash_no {c : Char} (l : Str) (h : (c == '/') = false) :
    lstripSlash (c :: l) = c :: l := by
  simp [lstripSlash, List.dropWhile, h]

/-! ## Shape of the normalized path -/

/-- The prefix-completion step always yields a path rooted at docs. -/
theorem pre_step (q : Str) :
    docsPrefixTok <+: (if docsPrefixTok.isPrefixOf q then q else docsPrefixTok ++ q) := by
  split
  · exact isPre_iff.mp (by assumption)
  · exact List.prefix_append _ _

/-- The extension-completion step preserves the docs/ prefix and always
yields an .md-suffixed path. -/
theorem suf_step (r : Str) (hr : docsPrefixTok <+: r) :
    docsPrefixTok <+: (if mdExt.isSuffixOf r then r else r ++ mdExt) ∧
      mdExt <:+ (if mdExt.isSuffixOf r then r else r ++ mdExt) := by
  split
  · exact ⟨hr, isSuf_iff.mp (by assumption)⟩
  · exact ⟨hr.trans (List.prefix_append _ _), List.suffix_append _ _⟩

/-- Every output of cleanupPath carries the docs/ prefix and the .md
extension. -/
theorem cleanupPath_shape (p : Str) :
    docsPrefixTok <+: cleanupPath p ∧ mdExt <:+ cleanupPath p :=
  suf_step _ (pre_step (lstripSlash p))

/-- A path that already carries the docs/ prefix does not start with
"http". -/
theorem notHttp_of_docs (t : Str) : httpTok.isPrefixOf (docsPrefixTok ++ t) = false := by
  have hcons : docsPrefixTok ++ t = 'd' :: ("ocs/".toList ++ t) := rfl
  have hh : httpTok = 'h' :: "ttp".toList := rfl
  have hhd : ('h' == 'd') = false := by decide
  rw [hcons, hh]
  simp [List.isPrefixOf, hhd]

/-- A path that already carries the docs/ prefix and the .md extension is
a fixed point of cleanupPath. -/
theorem cleanupPath_fix {y : Str} (h1 : docsPrefixTok <+: y) (h2 : mdExt <:+ y) :
    cleanupPath y = y := by
  obtain ⟨t, rfl⟩ := h1
  have hcons : docsPrefixTok ++ t = 'd' :: ("ocs/".toList ++ t) := rfl
  have hl : lstripSlash (docsPrefixTok ++ t) = docsPrefixTok ++ t := by
    rw [hcons]
    exact lstripSlash_no _ (by decide)
  have hpre : docsPrefixTok.isPrefixOf (docsPrefixTok ++ t) = true :=
    isPre_iff.mpr (List.prefix_append _ _)
  have hsuf : mdExt.isSuffixOf (docsPrefixTok ++ t) = true := isSuf_iff.mpr h2
  simp only [cleanupPath, hl, hpre, hsuf, if_true]

/-- An identifier that does not start with "http" passes the URL phase
unchanged. -/
theorem urlPhase_not_http {y : Str} (h : httpTok.isPrefixOf y = false) :
    urlPhase y = Except.ok y := by
  simp [urlPhase, h]

/-- A successful normalizePath is cleanupPath after a successful URL
phase. -/
theorem normalizePath_ok {x y : Str} (h : normalizePath x = Except.ok y) :
    ∃ z, urlPhase x = Except.ok z ∧ y = cleanupPath z := by
  unfold normalizePath at h
  cases hu : urlPhase x with
  | ok z =>
    rw [hu] at h
    refine ⟨z, rfl, ?_⟩
    have : Except.ok (ε := NormError) (cleanupPath z) = Except.ok y := h
    exact (Except.ok.inj this).symm
  | error e =>
    rw [hu] at h
    cases h

/-- Every successful normalizePath output carries the docs/ prefix and the
.md extension. -/
theorem normalizePath_shape {x y : Str} (h : normalizePath x = Except.ok y) :
    docsPrefixTok <+: y ∧ mdExt <:+ y := by
  obtain ⟨z, _, rfl⟩ := normalizePath_ok h
  exact cleanupPath_shape z

/-- Reduction of translateSearch on a decoded upstream body. -/
theorem translateSearch_ok (q : Str) (cap : Int) (data : SearchData) :
    translateSearch q cap (Upstream.ok data) =
      if data.items = [] then SearchResult.noResults
      else SearchResult.entries ((pySliceTo (min cap 10) data.items).map mkEntry) := rfl

/-! ## Claim theorems -/

/-- Claim C4: normalize is idempotent: whenever normalize succeeds, running
it again on its own output returns that output unchanged; in particular a
path already carrying the docs/ prefix and the .md extension is a no-op. -/
theorem normalizePath_idem (x y : Str) (h : normalizePath x = Except.ok y) :
    normalizePath y = Except.ok y := by
  obtain ⟨hpre, hsuf⟩ := normalizePath_shape h
  obtain ⟨t, rfl⟩ := hpre
  unfold normalizePath
  rw [urlPhase_not_http (notHttp_of_docs t)]
  show Except.ok (cleanupPath (docsPrefixTok ++ t)) = _
  rw [cleanupPath_fix (List.prefix_append _ _) hsuf]

/-- Witness for C4 at the concrete identifier cheaha/slurm/slurm_tutorial. -/
theorem normalizePath_idem_witness :
    normalizePath ("docs/cheaha/slurm/slurm_tutorial.md".toList) =
      Except.ok ("docs/cheaha/slurm/slurm_tutorial.md".toList) :=
  normalizePath_idem ("cheaha/slurm/slurm_tutorial".toList)
    ("docs/cheaha/slurm/slurm_tutorial.md".toList) (by decide)

/-- Claim C10: whenever get_documentation_page proceeds to a fetch, the
repository path used for the raw-content address starts with docs/, ends
with .md, and has no leading slash. -/
theorem fetchPath_shape (x y : Str) (h : normalizePath x = Except.ok y) :
    docsPrefixTok.isPrefixOf y = true ∧ mdExt.isSuffixOf y = true ∧
      ['/'].isPrefixOf y = false := by
  obtain ⟨hpre, hsuf⟩ := normalizePath_shape h
  refine ⟨isPre_iff.mpr hpre, isSuf_iff.mpr hsuf, ?_⟩
  obtain ⟨t, rfl⟩ := hpre
  have hcons : docsPrefixTok ++ t = 'd' :: ("ocs/".toList ++ t) := rfl
  have hsd : ('/' == 'd') = false := by decide
  rw [hcons]
  simp [List.isPrefixOf, hsd]

/-- Witness for C10 at the concrete identifier /intro. -/
theorem fetchPath_shape_witness :
    docsPrefixTok.isPrefixOf ("docs/intro.md".toList) = true ∧
      mdExt.isSuffixOf ("docs/intro.md".toList) = true ∧
      ['/'].isPrefixOf ("docs/intro.md".toList) = false :=
  fetchPath_shape ("/intro".toList) ("docs/intro.md".toList) (by decide)

/-- Claim C9: upstream status 401 maps to the authentication failure and
status 403 to the rate-limit failure, and the two outcomes are never
conflated. -/
theorem searchStatus_distinct (q : Str) (cap : Int) :
    translateSearch q cap (Upstream.httpError 401) = SearchResult.authenticationFailure ∧
      translateSearch q cap (Upstream.httpError 401) ≠ SearchResult.rateLimited ∧
      translateSearch q cap (Upstream.httpError 403) = SearchResult.rateLimited ∧
      translateSearch q cap (Upstream.httpError 403) ≠ SearchResult.authenticationFailure := by
  have h1 : translateSearch q cap (Upstream.httpError 401) =
      SearchResult.authenticationFailure := rfl
  have h3 : translateSearch q cap (Upstream.httpError 403) =
      SearchResult.rateLimited := rfl
  refine ⟨h1, ?_, h3, ?_⟩
  · rw [h1]
    decide
  · rw [h3]
    decide

/-- Counterexample for C2: normalize does not reject the empty identifier;
it returns the canonical path docs/.md rather than any error. -/
theorem normalizePath_empty_counterexample :
    normalizePath [] = Except.ok ("docs/.md".toList) ∧
      normalizePath [] ≠ Except.error NormError.notGithubUrl ∧
      normalizePath [] ≠ Except.error NormError.extractFailed := by decide

/-- Claim C2 as amended: normalize succeeds on the empty identifier and
canonicalizes it to docs/.md; emptiness is not detected as an invalid
reference. -/
theorem normalizePath_empty_amended :
    normalizePath [] = Except.ok ("docs/.md".toList) := by decide

/-- Claim C8: the Content Resolver tries main before master: a main-branch
text succeeds immediately, a failed main with a master text returns the
fallback content with no surfaced error, and NotFound arises only after
both candidates were attempted and failed. -/
theorem resolveContent_order (fetch : Str → Option Payload) (p s : Str) :
    (fetch (rawUrl mainBranch p) = some (Payload.text s) →
      resolveContent fetch p = ResolveOutcome.ok s) ∧
    (fetch (rawUrl mainBranch p) = none →
      fetch (rawUrl masterBranch p) = some (Payload.text s) →
      resolveContent fetch p = ResolveOutcome.ok s) ∧
    (resolveContent fetch p = ResolveOutcome.notFound →
      fetch (rawUrl mainBranch p) = none ∧ fetch (rawUrl masterBranch p) = none) := by
  refine ⟨?_, ?_, ?_⟩
  · intro h1
    unfold resolveContent
    rw [h1]
    rfl
  · intro h1 h2
    unfold resolveContent
    rw [h1, h2]
    rfl
  · intro h
    unfold resolveContent at h
    cases hm : fetch (rawUrl mainBranch p) with
    | some c =>
      rw [hm] at h
      cases c <;> simp [finishPayload] at h
    | none =>
      rw [hm] at h
      cases hm2 : fetch (rawUrl masterBranch p) with
      | some c =>
        rw [hm2] at h
        cases c <;> simp [finishPayload] at h
      | none => exact ⟨rfl, rfl⟩

/-- Witness for C8: with a fetch oracle on which main fails and master
returns text, the fallback content is returned. -/
theorem resolveContent_order_witness :
    resolveContent demoFetch ("docs/a.md".toList) = ResolveOutcome.ok ("hello".toList) :=
  (resolveContent_order demoFetch ("docs/a.md".toList) ("hello".toList)).2.1
    (by decide) (by decide)

/-- Counterexample for C1: a requested cap of 0 is passed through as the
upstream page size, so the cap is not clamped into [1, 10] from below. -/
theorem searchCap_counterexample :
    (buildSearchRequest ("gpu".toList) 0).perPage = 0 ∧
      ¬ (1 ≤ (buildSearchRequest ("gpu".toList) 0).perPage) := by decide

/-- Claim C1 as amended: the cap is clamped only from above, to 10: a cap
above 10 yields page size 10 and output truncated to at most 10 entries,
while a cap of zero or below is forwarded unchanged as the upstream page
size. -/
theorem searchCap_amended (q : Str) (cap : Int) (data : SearchData) :
    (10 < cap → (buildSearchRequest q cap).perPage = 10 ∧
      ∀ l, translateSearch q cap (Upstream.ok data) = SearchResult.entries l →
        l.length ≤ 10) ∧
    (cap ≤ 0 → (buildSearchRequest q cap).perPage = cap) := by
  constructor
  · intro hcap
    have hmin : min cap 10 = 10 := min_eq_right (le_of_lt hcap)
    constructor
    · show min cap 10 = 10
      exact hmin
    · intro l hl
      rw [translateSearch_ok] at hl
      split at hl
      · cases hl
      · have hleq := SearchResult.entries.inj hl
        rw [← hleq, hmin, List.length_map]
        have hp : pySliceTo (10 : Int) data.items = data.items.take 10 := by
          unfold pySliceTo
          rw [if_pos (by norm_num)]
          rfl
        rw [hp]
        exact List.length_take_le 10 data.items
  · intro hcap
    show min cap 10 = cap
    exact min_eq_left (le_trans hcap (by norm_num))

/-- Witness for C1: a cap of 15 is clamped to page size 10, and a cap of
-2 is forwarded unclamped. -/
theorem searchCap_amended_witness :
    (buildSearchRequest ("gpu".toList) 15).perPage = 10 ∧
      (buildSearchRequest ("gpu".toList) (-2)).perPage = -2 :=
  ⟨((searchCap_amended ("gpu".toList) 15 ⟨0, []⟩).1 (by decide)).1,
   (searchCap_amended ("gpu".toList) (-2) ⟨0, []⟩).2 (by decide)⟩

/-- Counterexample for C3: the transform is not idempotent on every path;
a path with a doubled root prefix loses one docs/ segment per pass. -/
theorem cleanPath_idem_counterexample :
    cleanPath (cleanPath ("docs/docs/a".toList)) ≠
      cleanPath ("docs/docs/a".toList) := by decide

/-- Claim C3 as amended: the transform is idempotent exactly on inputs
whose image is already clean, that is, contains no further .md occurrence,
no README occurrence, and no leading docs/ segment; a surviving docs/
prefix (or a reassembled .md or README) is reduced again by a second
pass. -/
theorem cleanPath_idem_amended (p : Str)
    (h1 : hasSub mdExt (cleanPath p) = false)
    (h2 : hasSub readmeTok (cleanPath p) = false)
    (h3 : docsPrefixTok.isPrefixOf (cleanPath p) = false) :
    cleanPath (cleanPath p) = cleanPath p := by
  have hm : removeAll mdExt (cleanPath p) = cleanPath p := removeAll_eq_self h1
  have hr : removeAll readmeTok (cleanPath p) = cleanPath p := removeAll_eq_self h2
  have hd : dropDocsPre (cleanPath p) = cleanPath p := by
    unfold dropDocsPre
    rw [h3]
    simp
  have hs : rstripSlash (cleanPath p) = cleanPath p := by
    show rstripSlash
        (rstripSlash (dropDocsPre (removeAll readmeTok (removeAll mdExt p)))) = _
    rw [rstripSlash_idem]
    rfl
  show rstripSlash (dropDocsPre (removeAll readmeTok (removeAll mdExt (cleanPath p)))) =
    cleanPath p
  rw [hm, hr, hd, hs]

/-- Witness for C3 at the concrete hit path docs/cheaha/slurm_tutorial.md. -/
theorem cleanPath_idem_amended_witness :
    cleanPath (cleanPath ("docs/cheaha/slurm_tutorial.md".toList)) =
      cleanPath ("docs/cheaha/slurm_tutorial.md".toList) :=
  cleanPath_idem_amended ("docs/cheaha/slurm_tutorial.md".toList)
    (by decide) (by decide) (by decide)

/-- Counterexample for C6: the extension-dropping step removes interior
occurrences of .md as well, not only a trailing extension. -/
theorem mdStep_counterexample :
    removeAll mdExt ("a.mdb.md".toList) = "ab".toList ∧
      removeAll mdExt ("a.mdb.md".toList) ≠ "a.mdb".toList := by decide

/-- Claim C6 as amended: step 1 removes every occurrence of .md, scanning
left to right without rescanning: a first occurrence is excised wherever
it sits and scanning continues on the remainder. -/
theorem mdStep_amended (a b : Str)
    (h : hasSub mdExt (a ++ mdExt.dropLast) = false) :
    removeAll mdExt (a ++ (mdExt ++ b)) = a ++ removeAll mdExt b :=
  removeAll_atFirst (by decide) a b h

/-- Witness for C6: an interior .md between intro and x.md is removed. -/
theorem mdStep_amended_witness :
    removeAll mdExt ("intro".toList ++ (mdExt ++ "x.md".toList)) =
      "intro".toList ++ removeAll mdExt ("x.md".toList) :=
  mdStep_amended ("intro".toList) ("x.md".toList) (by decide)

/-- Counterexample for C5: the domain test is substring containment, not a
host check: an absolute URL on an unrelated host that merely embeds
github.com in its path is accepted and its path extracted. -/
theorem normalizeUrl_counterexample :
    normalizePath ("http://evil.com/github.com/blob/main/secret.md".toList) =
      Except.ok ("docs/secret.md".toList) ∧
      normalizePath ("http://evil.com/github.com/blob/main/secret.md".toList) ≠
        Except.error NormError.notGithubUrl := by decide

/-- Claim C5 as amended: an absolute URL fails with the invalid-reference
error exactly when it lacks the substring github.com anywhere (the code
performs no host check); when github.com occurs and the URL carries a
single /blob/ segment followed by a slash-free revision name, the
substring after that revision segment is extracted as the working path. -/
theorem normalizeUrl_amended (s pre rev rest : Str)
    (hhttp : httpTok.isPrefixOf s = true) :
    (hasSub githubComTok s = false →
      normalizePath s = Except.error NormError.notGithubUrl) ∧
    (s = pre ++ (blobTok ++ (rev ++ ('/' :: rest))) →
      hasSub githubComTok s = true →
      hasSub blobTok (pre ++ blobTok.dropLast) = false →
      hasSub blobTok (rev ++ ('/' :: rest)) = false →
      '/' ∉ rev →
      urlPhase s = Except.ok rest) := by
  constructor
  · intro hgh
    simp [normalizePath, urlPhase, hhttp, hgh, Except.map]
  · intro hs hgh hpre hrest hrev
    subst hs
    have h1 : splitFirst blobTok (pre ++ (blobTok ++ (rev ++ ('/' :: rest)))) =
        some (pre, rev ++ ('/' :: rest)) :=
      splitFirst_atFirst (by decide) pre _ hpre
    have h2 : splitFirst blobTok (rev ++ ('/' :: rest)) = none :=
      splitFirst_of_not_hasSub hrest
    have h3 : splitFirst ['/'] (rev ++ ('/' :: rest)) = some (rev, rest) := by
      have hshape : rev ++ ('/' :: rest) = rev ++ (['/'] ++ rest) := rfl
      rw [hshape]
      refine splitFirst_atFirst (by decide) rev rest ?_
      have hd : (['/'] : Str).dropLast = [] := rfl
      rw [hd, List.append_nil]
      exact hasSub_false_of_head_notMem hrev
    simp [urlPhase, hhttp, hgh, h1, h2, h3]

/-- Witness for C5 at a concrete repository blob URL. -/
theorem normalizeUrl_amended_witness :
    urlPhase
        ("https://github.com/uabrc/uabrc.github.io/blob/main/docs/cheaha/x.md".toList) =
      Except.ok ("docs/cheaha/x.md".toList) :=
  (normalizeUrl_amended
      ("https://github.com/uabrc/uabrc.github.io/blob/main/docs/cheaha/x.md".toList)
      ("https://github.com/uabrc/uabrc.github.io".toList)
      ("main".toList) ("docs/cheaha/x.md".toList) (by decide)).2
    (by decide) (by decide) (by decide) (by decide) (by decide)

/-- Counterexample for C7: the display-side and search-side URL
derivations disagree on a canonical path containing README, because only
the search side removes the README token. -/
theorem urlAgreement_counterexample :
    docsSiteUrl ("docs/a/README.md".toList) ≠ docUrl ("docs/a/README.md".toList) := by
  decide

/-- Claim C7 as amended: on canonical repository paths docs/q.md whose
interior q is free of the letter R (so free of the README token), the
display URL of get_documentation_page and the public URL of
search_documentation coincide; with README present they differ. -/
theorem urlAgreement_amended (q : Str) (h : 'R' ∉ q) :
    docsSiteUrl (docsPrefixTok ++ (q ++ mdExt)) =
      docUrl (docsPrefixTok ++ (q ++ mdExt)) := by
  have hD : removeFirst docsPrefixTok (docsPrefixTok ++ (q ++ mdExt)) = q ++ mdExt :=
    removeFirst_append_self (by decide) _
  have hdot : ('.' : Char) ∉ docsPrefixTok := by decide
  have hS1 : removeAll mdExt (docsPrefixTok ++ (q ++ mdExt)) =
      docsPrefixTok ++ removeAll mdExt (q ++ mdExt) := by
    have hm : mdExt = '.' :: "md".toList := rfl
    rw [hm]
    exact removeAll_append_left docsPrefixTok (q ++ ('.' :: "md".toList)) hdot
  have hR : ('R' : Char) ∉ docsPrefixTok ++ removeAll mdExt (q ++ mdExt) := by
    intro hmem
    rcases List.mem_append.mp hmem with hm | hm
    · exact absurd hm (by decide)
    · rcases List.mem_append.mp (mem_of_mem_removeAll hm) with hq | he
      · exact h hq
      · exact absurd he (by decide)
  have hS2 : removeAll readmeTok (docsPrefixTok ++ removeAll mdExt (q ++ mdExt)) =
      docsPrefixTok ++ removeAll mdExt (q ++ mdExt) := by
    have hrm : readmeTok = 'R' :: "EADME".toList := rfl
    rw [hrm]
    exact removeAll_eq_self (hasSub_false_of_head_notMem hR)
  have hS3 : dropDocsPre (docsPrefixTok ++ removeAll mdExt (q ++ mdExt)) =
      removeAll mdExt (q ++ mdExt) := by
    unfold dropDocsPre
    rw [if_pos (isPre_iff.mpr (List.prefix_append _ _))]
    have h5 : docsPrefixTok.length = 5 := by decide
    rw [← h5]
    exact List.drop_left _ _
  suffices hsame : displayPath (docsPrefixTok ++ (q ++ mdExt)) =
      cleanPath (docsPrefixTok ++ (q ++ mdExt)) by
    unfold docsSiteUrl docUrl
    rw [hsame]
  unfold displayPath cleanPath
  rw [hD, hS1, hS2, hS3]

/-- Witness for C7 at the concrete path docs/cheaha/slurm_tutorial.md. -/
theorem urlAgreement_amended_witness :
    docsSiteUrl (docsPrefixTok ++ ("cheaha/slurm_tutorial".toList ++ mdExt)) =
      docUrl (docsPrefixTok ++ ("cheaha/slurm_tutorial".toList ++ mdExt)) :=
  urlAgreement_amended ("cheaha/slurm_tutorial".toList) (by decide)
